import Mathlib

/-!
Verification development for the `gocli` shell
(`internal/shell/{parsing,pipeline,commands,environment}.go`).

The Go sources are embedded shallowly:

* the environment store (`environment.go`) becomes an association list with
  first-match lookup (`envMap.Set` overwrites, which prepending models);
* variable substitution (`pipelineRunner.expandVar`, regexp
  `\$(\w+)|\$\{([^}]+)\}` with `ReplaceAllStringFunc`) becomes a fueled
  left-to-right character scan with the same leftmost-first alternation;
* the tokenizer (`tokenizeWithQuotes`) becomes a fold over the input
  characters with the same mutable state;
* the parser (`inputProcessor.Parse` / `parsePipeline`) is translated
  clause by clause (`Parse` in Go always returns a `nil` error, so the
  error component is omitted);
* the pipeline executor (`pipelineRunner.Execute`) becomes a recursion over
  the descriptor list.  Effects are made explicit: resolved commands are
  oracles `InSrc → OutSink → Int × Bool` standing for `Command.Execute`,
  file-open success is an oracle `String → Bool`, and the outcome records
  the stages actually invoked and the pipe write-ends explicitly closed.
  `os.Pipe` creation failure and the deferred bulk close of `toClose` are
  not modeled; environment mutation by a command mid-pipeline is not
  modeled (no claim under consideration involves it).
-/

/-! ### Characters used by the scanner (named to keep literals out of patterns) -/

def squoteC : Char := Char.ofNat 39
def dquoteC : Char := Char.ofNat 34
def dollarC : Char := Char.ofNat 36
def lbraceC : Char := Char.ofNat 123
def rbraceC : Char := Char.ofNat 125
def eqC : Char := Char.ofNat 61

/-! ### Environment store (`environment.go`) -/

def EnvStore := List (String × String)

instance : DecidableEq EnvStore := by unfold EnvStore; infer_instance

/-- Model of `envMap.Get`: lookup of the most recent binding. -/
def envGet : EnvStore → String → Option String
  | [], _ => none
  | (k2, v) :: rest, k => if k2 = k then some v else envGet rest k

/-- Model of `envMap.Set`: the new binding shadows any older one. -/
def envSet (e : EnvStore) (k v : String) : EnvStore := (k, v) :: e

/-- Model of `envAssignmentCmd.Execute` (commands.go): sets the variable and
returns exit code 0 without terminating the session. -/
def envAssignmentExec (e : EnvStore) (key value : String) :
    EnvStore × Int × Bool :=
  (envSet e key value, 0, false)

/-! ### Variable substitution (`pipelineRunner.expandVar`, pipeline.go lines 26-42)

The Go regexp `\$(\w+)|\$\{([^}]+)\}` is applied with
`ReplaceAllStringFunc`; Go regexps use leftmost-first matching, `\w` is the
ASCII class `[0-9A-Za-z_]`, and the replacement callback returns the
environment value on a hit and the original match on a miss.  The scan
below walks the characters once; the fuel argument (always instantiated
with the length of the input) only makes the recursion structural. -/

def isWordChar (c : Char) : Bool := c.isAlphanum || c = Char.ofNat 95

/-- Attempt of the two regexp alternatives at one position, on the text
following a `$`.  `\\$(\\w+)` is tried first: a nonempty word run.
Otherwise `\\$\\{([^}]+)\\}`: an opening brace, a nonempty run of
non-brace characters and the closing brace.  On success the result is the
identifier, the matched text after the `$`, and the remaining input; `none`
means the `$` is literal. -/
def matchVar (rest : List Char) : Option (String × List Char × List Char) :=
  if rest.takeWhile isWordChar ≠ [] then
    some (String.mk (rest.takeWhile isWordChar), rest.takeWhile isWordChar,
      rest.dropWhile isWordChar)
  else
    match rest with
    | c2 :: rest2 =>
      if c2 = lbraceC then
        match rest2.dropWhile (fun x => x ≠ rbraceC) with
        | b :: after =>
          if rest2.takeWhile (fun x => x ≠ rbraceC) ≠ [] then
            some (String.mk (rest2.takeWhile (fun x => x ≠ rbraceC)),
              c2 :: (rest2.takeWhile (fun x => x ≠ rbraceC) ++ [b]), after)
          else none
        | [] => none
      else none
    | [] => none

def expandAux (env : EnvStore) : Nat → List Char → List Char
  | 0, cs => cs
  | _ + 1, [] => []
  | fuel + 1, c :: rest =>
    if c = dollarC then
      match matchVar rest with
      | some (key, txt, rem) =>
        (match envGet env key with
          | some v => v.data
          | none => c :: txt) ++ expandAux env fuel rem
      | none => c :: expandAux env fuel rest
    else c :: expandAux env fuel rest

/-- Identifiers looked up by `expandAux` on the same input, in scan order. -/
def scanKeysAux : Nat → List Char → List String
  | 0, _ => []
  | _ + 1, [] => []
  | fuel + 1, c :: rest =>
    if c = dollarC then
      match matchVar rest with
      | some (key, _, rem) => key :: scanKeysAux fuel rem
      | none => scanKeysAux fuel rest
    else scanKeysAux fuel rest

def expandVar (env : EnvStore) (s : String) : String :=
  String.mk (expandAux env s.data.length s.data)

def scanKeys (s : String) : List String := scanKeysAux s.data.length s.data

/-- One piece of the scan's decomposition of the input: either a literal
chunk copied verbatim, or an occurrence `(identifier, matched text)` where
the matched text is the full `$...` source text of the occurrence.  The
decomposition never consults the store. -/
abbrev ScanSeg := List Char ⊕ (String × List Char)

instance : BEq ScanSeg := instBEqOfDecidableEq

instance : LawfulBEq ScanSeg := by infer_instance

/-- Decomposition of the input into literal chunks and occurrences, by the
same scan as `expandAux`. -/
def scanSegsAux : Nat → List Char → List ScanSeg
  | 0, cs => [Sum.inl cs]
  | _ + 1, [] => []
  | fuel + 1, c :: rest =>
    if c = dollarC then
      match matchVar rest with
      | some (key, txt, rem) => Sum.inr (key, c :: txt) :: scanSegsAux fuel rem
      | none => Sum.inl [c] :: scanSegsAux fuel rest
    else Sum.inl [c] :: scanSegsAux fuel rest

/-- Rendering of one segment against a store, exactly as the replacement
callback of pipeline.go lines 29-41: a literal chunk is copied, an
occurrence becomes the variable value on a hit and its original matched
text on a miss. -/
def renderSeg (env : EnvStore) : ScanSeg → List Char
  | Sum.inl t => t
  | Sum.inr (key, txt) =>
    match envGet env key with
    | some v => v.data
    | none => txt

/-- The source text a segment stands for. -/
def segSource : ScanSeg → List Char
  | Sum.inl t => t
  | Sum.inr x => x.2

def scanSegs (s : String) : List ScanSeg := scanSegsAux s.data.length s.data

/-! ### Command descriptors (`shell.go`) -/

def EnvAssignmentCmd : String := "$"
def ExitCommand : String := "exit"

structure CommandDescription where
  name : String
  arguments : List String
  fileInPath : String
  fileOutPath : String
  isPiped : Bool
  singleQuotedArgs : List Nat
  doubleQuotedArgs : List Nat
deriving Repr, DecidableEq

/-! ### Tokenizer (`tokenizeWithQuotes`, parsing.go lines 14-83)

The Go function keeps a string builder `current`, two quote states and two
per-token flags; the quote-index maps become the lists of flagged token
indices. -/

structure TokState where
  tokens : List String
  singleQuoted : List Nat
  doubleQuoted : List Nat
  current : List Char
  inSingle : Bool
  inDouble : Bool
  startedSingle : Bool
  startedDouble : Bool
deriving Repr, DecidableEq

def tokInit : TokState :=
  { tokens := [], singleQuoted := [], doubleQuoted := [], current := [],
    inSingle := false, inDouble := false,
    startedSingle := false, startedDouble := false }

/-- Emission of the pending token (the two `append`/flag blocks of the Go
loop, lines 52-64 and 71-80). -/
def tokFlush (st : TokState) : TokState :=
  let idx := st.tokens.length
  { st with
    tokens := st.tokens ++ [String.mk st.current],
    singleQuoted :=
      st.singleQuoted ++ (if st.startedSingle ∧ ¬ st.inSingle then [idx] else []),
    doubleQuoted :=
      st.doubleQuoted ++ (if st.startedDouble ∧ ¬ st.inDouble then [idx] else []),
    current := [],
    startedSingle := false, startedDouble := false }

/-- One iteration of the Go character loop (lines 24-69). -/
def tokStep (st : TokState) (c : Char) : TokState :=
  if c = squoteC ∧ ¬ st.inDouble then
    if st.inSingle then { st with inSingle := false }
    else
      { st with inSingle := true,
                startedSingle := if st.current = [] then true else st.startedSingle }
  else if c = dquoteC ∧ ¬ st.inSingle then
    if st.inDouble then { st with inDouble := false }
    else
      { st with inDouble := true,
                startedDouble := if st.current = [] then true else st.startedDouble }
  else if (c = ' ' ∨ c = Char.ofNat 9) ∧ ¬ st.inSingle ∧ ¬ st.inDouble then
    if st.current ≠ [] then tokFlush st else st
  else { st with current := st.current ++ [c] }

def tokenizeWithQuotes (input : String) : List String × List Nat × List Nat :=
  let st := input.data.foldl tokStep tokInit
  let st := if st.current ≠ [] then tokFlush st else st
  (st.tokens, st.singleQuoted, st.doubleQuoted)

/-! ### Parser (`inputProcessor.Parse` / `parsePipeline`, parsing.go lines 89-200) -/

/-- Model of `strings.Split` with a one-character separator: empty fields
are kept, and splitting the empty string yields one empty field. -/
def splitChars (sep : Char) : List Char → List (List Char)
  | [] => [[]]
  | c :: rest =>
    match splitChars sep rest with
    | [] => [[]]
    | g :: gs => if c = sep then [] :: g :: gs else (c :: g) :: gs

def splitOnChar (sep : Char) (s : String) : List String :=
  (splitChars sep s.data).map String.mk

def isSpaceChar (c : Char) : Bool :=
  c = ' ' || c = Char.ofNat 9 || c = Char.ofNat 10 || c = Char.ofNat 13

/-- Model of `strings.TrimSpace` (the inputs of interest are single lines of
ASCII text). -/
def trimSpace (s : String) : String :=
  String.mk (((s.data.dropWhile isSpaceChar).reverse.dropWhile isSpaceChar).reverse)

/-- The assignment-token test of parsing.go lines 127-129: contains `=`,
neither starts nor ends with `=`, and is not a redirection operator. -/
def isAssignTok (t : String) : Bool :=
  t.data.contains eqC && !(t.data.head? == some eqC)
    && !(t.data.getLast? == some eqC) && t != "<" && t != ">"

/-- Model of `strings.SplitN(tok, "=", 2)`. -/
def splitN2Eq (t : String) : List String :=
  if t.data.contains eqC then
    [String.mk (t.data.takeWhile (fun c => c ≠ eqC)),
     String.mk ((t.data.dropWhile (fun c => c ≠ eqC)).tail)]
  else [t]

/-- The leading-assignment scan of parsing.go lines 123-142: consecutive
leading assignment tokens become assignment descriptors; the returned
number is `cmdStartIdx`.  `isPiped` is set to `len(parts) > 1` where
`parts` is the (always two-element) result of the inner `SplitN` — the Go
code shadows the pipeline split of the same name here, so the flag is
always true; the expression is kept verbatim. -/
def leadingAssigns : List String → List CommandDescription × Nat
  | [] => ([], 0)
  | t :: rest =>
    if isAssignTok t then
      let kv := splitN2Eq t
      if kv.length = 2 then
        let r := leadingAssigns rest
        ({ name := EnvAssignmentCmd, arguments := kv,
           fileInPath := "", fileOutPath := "",
           isPiped := decide (kv.length > 1),
           singleQuotedArgs := [], doubleQuotedArgs := [] } :: r.1,
         r.2 + 1)
      else ([], 0)
    else ([], 0)

/-- State of the redirection/argument loop (parsing.go lines 156-180);
`argIdx` of the Go code always equals `newArgs.length`. -/
structure RedirState where
  inFile : String
  outFile : String
  newArgs : List String
  sqArgs : List Nat
  dqArgs : List Nat
deriving Repr, DecidableEq

def redirInit : RedirState :=
  { inFile := "", outFile := "", newArgs := [], sqArgs := [], dqArgs := [] }

/-- The `else` branch of the loop: the token becomes an argument and its
quote flags are re-mapped from token index `j` to the argument index. -/
def redirAppend (sq dq : List Nat) (j : Nat) (t : String) (st : RedirState) :
    RedirState :=
  { st with
    newArgs := st.newArgs ++ [t],
    sqArgs := st.sqArgs ++ (if j ∈ sq then [st.newArgs.length] else []),
    dqArgs := st.dqArgs ++ (if j ∈ dq then [st.newArgs.length] else []) }

/-- The loop over `(index, token)` pairs from `cmdStartIdx` on.  A `<` or
`>` with a following token records that token as the redirection path and
skips it (`j++`); with no following token both conditions fail and the
operator falls through to the argument branch. -/
def redirLoop (sq dq : List Nat) : List (Nat × String) → RedirState → RedirState
  | [], st => st
  | [x], st => redirAppend sq dq x.1 x.2 st
  | x :: y :: rest, st =>
    if x.2 = "<" then redirLoop sq dq rest { st with inFile := y.2 }
    else if x.2 = ">" then redirLoop sq dq rest { st with outFile := y.2 }
    else redirLoop sq dq (y :: rest) (redirAppend sq dq x.1 x.2 st)

/-- Model of `inputProcessor.parsePipeline`: split one clause on `|`,
tokenize each non-empty stage, peel leading assignments, extract
redirections, and emit the invocation descriptor.  `isPiped` of an
invocation is `cmdIndex < len(parts)-1` over the raw pipe split. -/
def parsePipeline (input : String) : List CommandDescription :=
  let parts := splitOnChar (Char.ofNat 124) input
  let n := parts.length
  parts.enum.foldl
    (fun acc x =>
      let cmdIndex := x.1
      let part := trimSpace x.2
      if part = "" then acc
      else
        let tq := tokenizeWithQuotes part
        let tokens := tq.1
        if tokens = [] then acc
        else
          let la := leadingAssigns tokens
          let cmdStartIdx := la.2
          if cmdStartIdx ≥ tokens.length then acc ++ la.1
          else
            let r := redirLoop tq.2.1 tq.2.2 (tokens.enum.drop cmdStartIdx) redirInit
            if r.newArgs = [] then acc ++ la.1
            else
              acc ++ la.1 ++
                [{ name := r.newArgs.headI, arguments := r.newArgs,
                   fileInPath := r.inFile, fileOutPath := r.outFile,
                   isPiped := decide (cmdIndex < n - 1),
                   singleQuotedArgs := r.sqArgs, doubleQuotedArgs := r.dqArgs }])
    []

/-- Model of `inputProcessor.Parse`: split the line on `;`, skip blank
clauses, concatenate the pipelines.  The Go method's error result is the
constant `nil` and is omitted. -/
def Parse (input : String) : List CommandDescription :=
  (splitOnChar (Char.ofNat 59) input).foldl
    (fun acc raw =>
      let t := trimSpace raw
      if t = "" then acc else acc ++ parsePipeline t)
    []

/-! ### Pipeline executor (`pipelineRunner.Execute`, pipeline.go lines 44-159)

`os.Pipe` endpoints are identified by the index of the writing stage: for
`0 ≤ j < n-1` the loop of lines 64-72 sets `pipeWrites[j]` and
`pipeReads[j+1]` to the two ends of pipe `j`, and every other entry stays
`nil`; hence stage `i` has an inbound read end exactly when `0 < i` and an
outbound write end exactly when it is not the last stage.  Resolved
commands are oracles for `Command.Execute`; `openOk`/`createOk` are oracles
for the success of `os.Open`/`os.Create`.  The outcome records the return
value, the stages on which the command was invoked and the pipe write-ends
closed inside the loop. -/

inductive InSrc where
  | stdin : InSrc
  | inFile (path : String) : InSrc
  | pipeRead (j : Nat) : InSrc
deriving Repr, DecidableEq

inductive OutSink where
  | stdout : OutSink
  | outFile (path : String) : OutSink
  | pipeWrite (j : Nat) : OutSink
deriving Repr, DecidableEq

def GoCmd := InSrc → OutSink → Int × Bool

/-- One `cmd.Execute` invocation as performed by the loop: stage index,
descriptor (with substituted arguments), chosen streams and result. -/
structure StageRun where
  index : Nat
  desc : CommandDescription
  inp : InSrc
  out : OutSink
  code : Int
  exitFlag : Bool
deriving Repr, DecidableEq

structure ExecOutcome where
  retCode : Int
  exited : Bool
  runs : List StageRun
  closes : List Nat
deriving Repr, DecidableEq

/-- The per-descriptor substitution loop of pipeline.go lines 75-87: an
argument whose index carries the single- or double-quote flag is kept, any
other argument goes through `expandVar`. -/
def substituteArgs (env : EnvStore) (d : CommandDescription) : List String :=
  d.arguments.enum.map fun x =>
    if x.1 ∈ d.singleQuotedArgs ∨ x.1 ∈ d.doubleQuotedArgs then x.2
    else expandVar env x.2

def substDesc (env : EnvStore) (d : CommandDescription) : CommandDescription :=
  { d with arguments := substituteArgs env d }

/-- The body of the `for i, desc := range pipeline` loop.  `i` is the index
of the current descriptor within the whole list, `acc` the current value of
the `retCode` variable; `rest ≠ []` is `i != len(pipeline)-1`. -/
def execLoop (factory : CommandDescription → Option GoCmd)
    (openOk createOk : String → Bool) (env : EnvStore) :
    Nat → Int → List CommandDescription → ExecOutcome
  | _, acc, [] => { retCode := acc, exited := false, runs := [], closes := [] }
  | i, acc, desc :: rest =>
    let d := substDesc env desc
    if d.name = ExitCommand ∧ rest ≠ [] then
      -- lines 89-97: non-terminal `exit` closes its write end and continues
      let o := execLoop factory openOk createOk env (i + 1) acc rest
      { o with closes := i :: o.closes }
    else
      match factory d with
      | none =>
        -- lines 99-105: resolution failure returns 127 for the whole call
        { retCode := 127, exited := false, runs := [],
          closes := if rest ≠ [] then [i] else [] }
      | some cmd =>
        if d.fileInPath ≠ "" ∧ openOk d.fileInPath = false then
          -- lines 112-119: failed `os.Open` aborts with -1
          { retCode := -1, exited := false, runs := [],
            closes := if rest ≠ [] then [i] else [] }
        else
          let inp := if d.fileInPath ≠ "" then InSrc.inFile d.fileInPath
                     else if 0 < i then InSrc.pipeRead (i - 1)
                     else InSrc.stdin
          if d.fileOutPath ≠ "" ∧ createOk d.fileOutPath = false then
            -- lines 126-133: failed `os.Create` aborts with -1
            { retCode := -1, exited := false, runs := [],
              closes := if rest ≠ [] then [i] else [] }
          else
            let out := if d.fileOutPath ≠ "" then OutSink.outFile d.fileOutPath
                       else if rest ≠ [] then OutSink.pipeWrite i
                       else OutSink.stdout
            let res := cmd inp out
            let postClose : List Nat :=
              if rest ≠ [] ∧ out = OutSink.pipeWrite i then [i] else []
            if res.2 = true ∧ rest = [] then
              -- lines 146-151: a terminal stage requesting exit returns its code
              { retCode := res.1, exited := true,
                runs := [⟨i, d, inp, out, res.1, res.2⟩], closes := postClose }
            else
              let o := execLoop factory openOk createOk env (i + 1)
                         (if rest = [] then res.1 else acc) rest
              { o with runs := ⟨i, d, inp, out, res.1, res.2⟩ :: o.runs,
                       closes := postClose ++ o.closes }

def Execute (factory : CommandDescription → Option GoCmd)
    (openOk createOk : String → Bool) (env : EnvStore)
    (pipeline : List CommandDescription) : ExecOutcome :=
  if pipeline = [] then { retCode := 0, exited := false, runs := [], closes := [] }
  else execLoop factory openOk createOk env 0 0 pipeline

/-- Behavior of `exitCommand.Execute` (commands.go lines 100-105): code 0,
session terminates. -/
def exitGoCmd : GoCmd := fun _ _ => (0, true)

/-- Output of `echoCommand.Execute` (commands.go lines 143-151) on the
descriptor's argument list: the factory passes `arguments[1:]`, the command
joins them with spaces and `Fprintln` appends a newline. -/
def echoOutput (args : List String) : String :=
  String.intercalate " " args.tail ++ "\n"

/-! ### Concrete fixtures used by counterexamples and witnesses -/

def allOkOracle : String → Bool := fun _ => true

/-- Behavior of a resolved stage whose own execution reports exit code `c`
without requesting session termination (for instance an external command
exiting with status `c`, commands.go lines 227-253). -/
def plainGoCmd (c : Int) : GoCmd := fun _ _ => (c, false)

/-- Resolver oracle mapping `exit` to the builtin exit behavior and every
other name to a stage exiting with status 1 (such as the external command
`false`). -/
def cfExitAfterOne : CommandDescription → Option GoCmd := fun d =>
  if d.name = ExitCommand then some exitGoCmd else some (plainGoCmd 1)

/-- Resolver oracle mapping `exit` to the builtin exit behavior and every
other name to a stage exiting with status 5. -/
def cfExitAfterFive : CommandDescription → Option GoCmd := fun d =>
  if d.name = ExitCommand then some exitGoCmd else some (plainGoCmd 5)

/-- Resolver oracle failing on the name `boom` and succeeding elsewhere. -/
def cfBoom : CommandDescription → Option GoCmd := fun d =>
  if d.name = "boom" then none else some (plainGoCmd 0)

/-- Resolver oracle that always succeeds with a zero-status stage. -/
def cfZero : CommandDescription → Option GoCmd := fun _ => some (plainGoCmd 0)

def dBoom : CommandDescription :=
  ⟨"boom", ["boom"], "", "", false, [], []⟩

def dFive : CommandDescription :=
  ⟨"five", ["five"], "", "", true, [], []⟩

def dExitD : CommandDescription :=
  ⟨"exit", ["exit"], "", "", false, [], []⟩

def dEchoY : CommandDescription :=
  ⟨"echo", ["echo", "y"], "", "", false, [], []⟩

/-! ### Claims -/

/-- C1: the spec claims substitution is performed for unquoted and fully
double-quoted arguments and skipped only for single-quoted ones, so that
after `VAR=world` the command `echo "hi $VAR"` prints `hi world\n`.  The
code (pipeline.go line 78) skips substitution for double-quoted arguments
as well, against its own comment ("Skip substitution only for single
quoted args") and the repository README: the echo stage receives the
literal `hi $VAR` and prints `hi $VAR\n`, although `expandVar` would have
produced `hi world`. -/
theorem C1_double_quoted_arg_not_substituted :
    Parse "VAR=world" =
      [⟨EnvAssignmentCmd, ["VAR", "world"], "", "", true, [], []⟩] ∧
    (envAssignmentExec [] "VAR" "world").1 = [("VAR", "world")] ∧
    Parse ("echo " ++ String.mk [dquoteC] ++ "hi $VAR" ++ String.mk [dquoteC]) =
      [⟨"echo", ["echo", "hi $VAR"], "", "", false, [], [1]⟩] ∧
    substituteArgs [("VAR", "world")]
        ⟨"echo", ["echo", "hi $VAR"], "", "", false, [], [1]⟩ =
      ["echo", "hi $VAR"] ∧
    expandVar [("VAR", "world")] "hi $VAR" = "hi world" ∧
    echoOutput ["echo", "hi $VAR"] = "hi $VAR\n" ∧
    ("hi $VAR\n" : String) ≠ "hi world\n" := by
  decide

/-- C5: the spec claims no descriptor that ends its pipeline carries
`isPiped = true`, including a lone variable assignment.  The assignment
branch of the parser (parsing.go line 135) computes `isPiped` as
`len(parts) > 1` over the shadowing two-element `SplitN` result, so every
assignment descriptor — including the sole descriptor of `VAR=value` — is
marked piped. -/
theorem C5_lone_assignment_marked_piped :
    Parse "VAR=value" =
      [⟨EnvAssignmentCmd, ["VAR", "value"], "", "", true, [], []⟩] ∧
    (Parse "VAR=value").getLast?.map (fun d => d.isPiped) = some true := by
  decide

/-- C7 counterexample: the spec claims a dangling `<` is dropped so that it
appears neither as a redirection path nor as an argument; parsing
`echo hi <` shows the bare operator is kept as a regular argument. -/
theorem C7_counterexample_dangling_kept_as_argument :
    Parse "echo hi <" = [⟨"echo", ["echo", "hi", "<"], "", "", false, [], []⟩] ∧
    "<" ∈ (⟨"echo", ["echo", "hi", "<"], "", "", false, [], []⟩ :
      CommandDescription).arguments := by
  decide

/-- C7 (amended): a bare `<` or `>` with no following token sets no
redirection path and is appended to the argument list like any other token
(parsing.go lines 162-180: both operator conditions require a successor
token, so the operator falls to the argument branch). -/
theorem C7_dangling_operator_becomes_argument
    (sq dq : List Nat) (st : RedirState) (j : Nat) (t : String)
    (ht : t = "<" ∨ t = ">") :
    (redirLoop sq dq [(j, t)] st).newArgs = st.newArgs ++ [t] ∧
    (redirLoop sq dq [(j, t)] st).inFile = st.inFile ∧
    (redirLoop sq dq [(j, t)] st).outFile = st.outFile := by
  simp [redirLoop, redirAppend]

/-- C7 witness: the amended statement evaluated on a concrete dangling
`<` token. -/
theorem C7_dangling_operator_witness :
    (redirLoop [] [] [(2, "<")] redirInit).newArgs = redirInit.newArgs ++ ["<"] ∧
    (redirLoop [] [] [(2, "<")] redirInit).inFile = redirInit.inFile ∧
    (redirLoop [] [] [(2, "<")] redirInit).outFile = redirInit.outFile :=
  C7_dangling_operator_becomes_argument [] [] redirInit 2 "<" (Or.inl rfl)

/-- C2 counterexample: in `false | exit` the stage preceding the terminal
`exit` reports code 1, yet `Execute` returns code 0 — the exit command's
own result — so the session does not terminate with the preceding stage's
code as claimed. -/
theorem C2_counterexample_exit_code_not_inherited :
    (Execute cfExitAfterOne allOkOracle allOkOracle [] (Parse "false | exit")).exited
      = true ∧
    (Execute cfExitAfterOne allOkOracle allOkOracle [] (Parse "false | exit")).runs.map
        (fun r => (r.index, r.code)) = [(0, 1), (1, 0)] ∧
    (Execute cfExitAfterOne allOkOracle allOkOracle [] (Parse "false | exit")).retCode
      = 0 ∧
    ((0 : Int) ≠ 1) := by
  decide

/-- C3 counterexample: with a resolver that fails on `boom`, executing
`boom | echo hi` returns 127 with an empty run list — the subsequent
`echo hi` stage of the same `Execute` call is never executed, so the
executor does not continue past a resolution failure as claimed. -/
theorem C3_counterexample_failure_stops_later_stages :
    (Parse "boom | echo hi").length = 2 ∧
    (Execute cfBoom allOkOracle allOkOracle [] (Parse "boom | echo hi")).retCode
      = 127 ∧
    (Execute cfBoom allOkOracle allOkOracle [] (Parse "boom | echo hi")).runs
      = [] := by
  decide

/-- C4 counterexample: `echo a; echo b` parses to two descriptors whose
first has `isPiped = false`, yet the second stage's input is the inbound
pipe read-end `pipeRead 0` rather than the session default — pipes are
wired positionally (pipeline.go lines 64-72), not from the predecessor's
`isPiped` flag. -/
theorem C4_counterexample_pipe_despite_unpiped_predecessor :
    (Parse "echo a; echo b").map (fun d => d.isPiped) = [false, false] ∧
    (Execute cfZero allOkOracle allOkOracle [] (Parse "echo a; echo b")).runs.map
        (fun r => (r.index, r.inp)) =
      [(0, InSrc.stdin), (1, InSrc.pipeRead 0)] := by
  decide

/-- C6: a non-terminal `exit` stage (pipeline.go lines 89-97) is never
invoked, closes its outbound pipe write-end, and execution continues with
the remaining stages with the same accumulated return code — so it neither
terminates the session nor alters the terminal stage's exit code. -/
theorem C6_nonterminal_exit_skipped
    (factory : CommandDescription → Option GoCmd)
    (openOk createOk : String → Bool) (env : EnvStore)
    (i : Nat) (acc : Int) (d : CommandDescription)
    (rest : List CommandDescription)
    (hname : d.name = ExitCommand) (hrest : rest ≠ []) :
    (execLoop factory openOk createOk env i acc (d :: rest)).retCode =
      (execLoop factory openOk createOk env (i + 1) acc rest).retCode ∧
    (execLoop factory openOk createOk env i acc (d :: rest)).exited =
      (execLoop factory openOk createOk env (i + 1) acc rest).exited ∧
    (execLoop factory openOk createOk env i acc (d :: rest)).runs =
      (execLoop factory openOk createOk env (i + 1) acc rest).runs ∧
    (execLoop factory openOk createOk env i acc (d :: rest)).closes =
      i :: (execLoop factory openOk createOk env (i + 1) acc rest).closes := by
  simp [execLoop, substDesc, hname, hrest]

/-- C6 witness: the skipped-exit step evaluated in the middle of the
pipeline `echo x | exit | echo y`. -/
theorem C6_nonterminal_exit_witness :
    (execLoop cfZero allOkOracle allOkOracle [] 1 0 [dExitD, dEchoY]).retCode =
      (execLoop cfZero allOkOracle allOkOracle [] 2 0 [dEchoY]).retCode ∧
    (execLoop cfZero allOkOracle allOkOracle [] 1 0 [dExitD, dEchoY]).exited =
      (execLoop cfZero allOkOracle allOkOracle [] 2 0 [dEchoY]).exited ∧
    (execLoop cfZero allOkOracle allOkOracle [] 1 0 [dExitD, dEchoY]).runs =
      (execLoop cfZero allOkOracle allOkOracle [] 2 0 [dEchoY]).runs ∧
    (execLoop cfZero allOkOracle allOkOracle [] 1 0 [dExitD, dEchoY]).closes =
      1 :: (execLoop cfZero allOkOracle allOkOracle [] 2 0 [dEchoY]).closes :=
  C6_nonterminal_exit_skipped cfZero allOkOracle allOkOracle [] 1 0 dExitD
    [dEchoY] rfl (by decide)

/-- Substitution rewrites only the argument list; the descriptor's name is
untouched (pipeline.go line 87 reassigns `desc.arguments` only). -/
theorem substDesc_name (env : EnvStore) (d : CommandDescription) :
    (substDesc env d).name = d.name := rfl

/-- Loop-level form of C3: when the stages before `d` all resolve (or are
skipped non-terminal exits) and every redirection file opens, while `d`
itself fails to resolve, the loop invokes only stages before `d`, returns
127 without terminating the session, and closes the failing stage's
outbound pipe write-end when a later stage exists. -/
theorem execLoop_resolution_failure
    (factory : CommandDescription → Option GoCmd)
    (openOk createOk : String → Bool) (env : EnvStore)
    (d : CommandDescription) (rest : List CommandDescription)
    (hname : d.name ≠ ExitCommand)
    (hfail : factory (substDesc env d) = none)
    (hopen : ∀ p, openOk p = true) (hcreate : ∀ p, createOk p = true) :
    ∀ (pre : List CommandDescription),
      (∀ p ∈ pre, factory (substDesc env p) ≠ none) →
      ∀ (i : Nat) (acc : Int),
        (execLoop factory openOk createOk env i acc (pre ++ d :: rest)).retCode
          = 127 ∧
        (execLoop factory openOk createOk env i acc (pre ++ d :: rest)).exited
          = false ∧
        (∀ r ∈ (execLoop factory openOk createOk env i acc
            (pre ++ d :: rest)).runs, r.index < i + pre.length) ∧
        (rest ≠ [] → (i + pre.length) ∈
          (execLoop factory openOk createOk env i acc
            (pre ++ d :: rest)).closes) := by
  intro pre
  induction pre with
  | nil =>
    intro _ i acc
    have hout : execLoop factory openOk createOk env i acc ([] ++ d :: rest) =
        { retCode := 127, exited := false, runs := [],
          closes := if rest ≠ [] then [i] else [] } := by
      simp [execLoop, substDesc_name, hname, hfail]
    rw [hout]
    refine ⟨rfl, rfl, ?_, ?_⟩
    · intro r hr
      simp at hr
    · intro h
      simp [h]
  | cons p pre ih =>
    intro hres i acc
    have hresp : factory (substDesc env p) ≠ none := hres p (by simp)
    have hres2 : ∀ q ∈ pre, factory (substDesc env q) ≠ none :=
      fun q hq => hres q (by simp [hq])
    have hne : pre ++ d :: rest ≠ [] := by simp
    obtain ⟨ih1, ih2, ih3, ih4⟩ := ih hres2 (i + 1) acc
    by_cases hp : (substDesc env p).name = ExitCommand
    · refine ⟨?_, ?_, ?_, ?_⟩
      · simpa [execLoop, hp, hne] using ih1
      · simpa [execLoop, hp, hne] using ih2
      · intro r hr
        simp only [List.cons_append, execLoop, hp, hne] at hr
        simp only [ne_eq, not_false_iff, and_true, if_pos, not_true] at hr
        have := ih3 r (by simpa [hp, hne] using hr)
        simp only [List.length_cons]
        omega
      · intro h
        have h4 := ih4 h
        have heq : i + (p :: pre).length = (i + 1) + pre.length := by
          simp [List.length_cons]
          omega
        rw [heq]
        simp [execLoop, hp, hne, h4]
    · obtain ⟨cmd, hcmd⟩ : ∃ c, factory (substDesc env p) = some c := by
        cases hx : factory (substDesc env p) with
        | none => exact absurd hx hresp
        | some c => exact ⟨c, rfl⟩
      refine ⟨?_, ?_, ?_, ?_⟩
      · simpa [execLoop, hp, hne, hcmd, hopen, hcreate] using ih1
      · simpa [execLoop, hp, hne, hcmd, hopen, hcreate] using ih2
      · intro r hr
        simp only [List.cons_append, execLoop] at hr
        simp [hp, hne, hcmd, hopen, hcreate] at hr
        rcases hr with hr | hr
        · subst hr
          simp [List.length_cons]
        · have := ih3 r hr
          simp only [List.length_cons]
          omega
      · intro h
        have h4 := ih4 h
        have heq : i + (p :: pre).length = (i + 1) + pre.length := by
          simp [List.length_cons]
          omega
        rw [heq]
        simp [execLoop, hp, hne, hcmd, hopen, hcreate, h4]

/-- C3 (amended): a resolution failure at any stage of the descriptor list
yields exit code 127 and aborts the entire `Execute` call: the session is
not terminated, no stage from the failing one onward — in particular no
subsequent stage or clause of the same call — is ever invoked, and the
failing stage's outbound pipe write-end is closed when a later stage
exists (pipeline.go lines 99-105 return immediately). -/
theorem C3_resolution_failure_aborts_call
    (factory : CommandDescription → Option GoCmd)
    (openOk createOk : String → Bool) (env : EnvStore)
    (pre : List CommandDescription) (d : CommandDescription)
    (rest : List CommandDescription)
    (hname : d.name ≠ ExitCommand)
    (hfail : factory (substDesc env d) = none)
    (hres : ∀ p ∈ pre, factory (substDesc env p) ≠ none)
    (hopen : ∀ p, openOk p = true) (hcreate : ∀ p, createOk p = true) :
    (Execute factory openOk createOk env (pre ++ d :: rest)).retCode = 127 ∧
    (Execute factory openOk createOk env (pre ++ d :: rest)).exited = false ∧
    (∀ r ∈ (Execute factory openOk createOk env (pre ++ d :: rest)).runs,
      r.index < pre.length) ∧
    (rest ≠ [] →
      pre.length ∈ (Execute factory openOk createOk env
        (pre ++ d :: rest)).closes) := by
  have hne : pre ++ d :: rest ≠ [] := by simp
  have h := execLoop_resolution_failure factory openOk createOk env d rest
    hname hfail hopen hcreate pre hres 0 0
  simpa [Execute, hne] using h

/-- C3 witness: the amended statement on `echo y | boom | echo y`, where
the first stage runs before the second stage's resolution failure aborts
the call: code 127, no session termination, no stage at index 1 or later
invoked, and pipe write-end 1 closed. -/
theorem C3_resolution_failure_witness :
    (Execute cfBoom allOkOracle allOkOracle []
      ([dEchoY] ++ dBoom :: [dEchoY])).retCode = 127 ∧
    (Execute cfBoom allOkOracle allOkOracle []
      ([dEchoY] ++ dBoom :: [dEchoY])).exited = false ∧
    (∀ r ∈ (Execute cfBoom allOkOracle allOkOracle []
      ([dEchoY] ++ dBoom :: [dEchoY])).runs, r.index < [dEchoY].length) ∧
    (([dEchoY] : List CommandDescription) ≠ [] →
      [dEchoY].length ∈ (Execute cfBoom allOkOracle allOkOracle []
        ([dEchoY] ++ dBoom :: [dEchoY])).closes) :=
  C3_resolution_failure_aborts_call cfBoom allOkOracle allOkOracle []
    [dEchoY] dBoom [dEchoY] (by decide) rfl
    (fun p hp => by
      simp only [List.mem_singleton] at hp
      subst hp
      rw [show cfBoom (substDesc [] dEchoY) = some (plainGoCmd 0) from rfl]
      simp)
    (fun _ => rfl) (fun _ => rfl)

/-- Loop-level form of C2: whatever the codes of the earlier stages, a
pipeline ending in an `exit` descriptor finishes by running the builtin
exit command, which reports code 0 and requests termination. -/
theorem execLoop_exit_terminal
    (factory : CommandDescription → Option GoCmd)
    (openOk createOk : String → Bool) (env : EnvStore)
    (dexit : CommandDescription) (hname : dexit.name = ExitCommand)
    (hexit : ∀ d, d.name = ExitCommand → factory d = some exitGoCmd)
    (hres : ∀ d, factory d ≠ none)
    (hopen : ∀ p, openOk p = true) (hcreate : ∀ p, createOk p = true) :
    ∀ (pre : List CommandDescription) (i : Nat) (acc : Int),
      (execLoop factory openOk createOk env i acc (pre ++ [dexit])).retCode = 0 ∧
      (execLoop factory openOk createOk env i acc (pre ++ [dexit])).exited = true := by
  intro pre
  induction pre with
  | nil =>
    intro i acc
    have hf : factory (substDesc env dexit) = some exitGoCmd :=
      hexit _ (by rw [substDesc_name, hname])
    simp [execLoop, hf, hopen, hcreate, exitGoCmd]
  | cons p pre ih =>
    intro i acc
    have hne : pre ++ [dexit] ≠ [] := by simp
    by_cases hp : (substDesc env p).name = ExitCommand
    · simpa [execLoop, hp, hne] using ih (i + 1) acc
    · cases hf : factory (substDesc env p) with
      | none => exact absurd hf (hres _)
      | some cmd =>
        simpa [execLoop, hp, hne, hf, hopen, hcreate] using ih (i + 1) acc

/-- C2 (amended): when `exit` is the terminal stage of an executed
descriptor list whose other stages all resolve and whose redirection files
all open, `Execute` returns with the session-terminate flag true and exit
code 0 — the exit command's own code (commands.go lines 100-105) — rather
than the code of the preceding stage. -/
theorem C2_exit_terminal_returns_own_zero
    (factory : CommandDescription → Option GoCmd)
    (openOk createOk : String → Bool) (env : EnvStore)
    (pre : List CommandDescription) (dexit : CommandDescription)
    (hname : dexit.name = ExitCommand)
    (hexit : ∀ d, d.name = ExitCommand → factory d = some exitGoCmd)
    (hres : ∀ d, factory d ≠ none)
    (hopen : ∀ p, openOk p = true) (hcreate : ∀ p, createOk p = true) :
    (Execute factory openOk createOk env (pre ++ [dexit])).retCode = 0 ∧
    (Execute factory openOk createOk env (pre ++ [dexit])).exited = true := by
  have hne : pre ++ [dexit] ≠ [] := by simp
  simpa [Execute, hne] using
    execLoop_exit_terminal factory openOk createOk env dexit hname hexit hres
      hopen hcreate pre 0 0

/-- C2 witness: the amended statement on `five | exit` where the stage
preceding the terminal exit reports code 5. -/
theorem C2_exit_terminal_witness :
    (Execute cfExitAfterFive allOkOracle allOkOracle [] ([dFive] ++ [dExitD])).retCode
      = 0 ∧
    (Execute cfExitAfterFive allOkOracle allOkOracle [] ([dFive] ++ [dExitD])).exited
      = true :=
  C2_exit_terminal_returns_own_zero cfExitAfterFive allOkOracle allOkOracle []
    [dFive] dExitD rfl
    (fun d h => by simp [cfExitAfterFive, h])
    (fun d => by unfold cfExitAfterFive; split <;> simp)
    (fun _ => rfl) (fun _ => rfl)

/-- C4 (amended): for every stage the executor actually invokes, the input
source follows the precedence explicit `fileInPath` first, otherwise the
inbound pipe read-end, otherwise the session default input — where the
inbound pipe read-end is present exactly when the stage is not the first
descriptor of the executed list (index greater than 0), irrespective of
the preceding descriptor's `isPiped` flag. -/
theorem C4_input_source_choice
    (factory : CommandDescription → Option GoCmd)
    (openOk createOk : String → Bool) (env : EnvStore) :
    ∀ (l : List CommandDescription) (i : Nat) (acc : Int) (r : StageRun),
      r ∈ (execLoop factory openOk createOk env i acc l).runs →
      r.inp = (if r.desc.fileInPath ≠ "" then InSrc.inFile r.desc.fileInPath
               else if 0 < r.index then InSrc.pipeRead (r.index - 1)
               else InSrc.stdin) := by
  intro l
  induction l with
  | nil =>
    intro i acc r hr
    simp [execLoop] at hr
  | cons dsc rest ih =>
    intro i acc r hr
    simp only [execLoop] at hr
    by_cases hp : (substDesc env dsc).name = ExitCommand ∧ rest ≠ []
    · rw [if_pos hp] at hr
      exact ih (i + 1) acc r hr
    · rw [if_neg hp] at hr
      cases hf : factory (substDesc env dsc) with
      | none => simp [hf] at hr
      | some cmd =>
        rw [hf] at hr
        by_cases hin : (substDesc env dsc).fileInPath ≠ ""
          ∧ openOk (substDesc env dsc).fileInPath = false
        · simp only [if_pos hin] at hr
          simp at hr
        · simp only [if_neg hin] at hr
          by_cases hout : (substDesc env dsc).fileOutPath ≠ ""
            ∧ createOk (substDesc env dsc).fileOutPath = false
          · simp only [if_pos hout] at hr
            simp at hr
          · simp only [if_neg hout] at hr
            by_cases hterm :
                (cmd (if (substDesc env dsc).fileInPath ≠ ""
                        then InSrc.inFile (substDesc env dsc).fileInPath
                        else if 0 < i then InSrc.pipeRead (i - 1)
                        else InSrc.stdin)
                     (if (substDesc env dsc).fileOutPath ≠ ""
                        then OutSink.outFile (substDesc env dsc).fileOutPath
                        else if rest ≠ [] then OutSink.pipeWrite i
                        else OutSink.stdout)).2 = true ∧ rest = []
            · simp only [if_pos hterm] at hr
              simp only [List.mem_singleton] at hr
              subst hr
              rfl
            · simp only [if_neg hterm] at hr
              simp only [List.mem_cons] at hr
              cases hr with
              | inl h => subst h; rfl
              | inr h => exact ih (i + 1) _ r h

def cexRunB : StageRun :=
  ⟨1, ⟨"echo", ["echo", "b"], "", "", false, [], []⟩,
   InSrc.pipeRead 0, OutSink.stdout, 0, false⟩

/-- C4 witness: the input-choice invariant applied to the second stage of
the executed list of `echo a; echo b`, which reads the inbound pipe even
though its predecessor is not piped. -/
theorem C4_input_source_witness :
    cexRunB.inp =
      (if cexRunB.desc.fileInPath ≠ "" then InSrc.inFile cexRunB.desc.fileInPath
       else if 0 < cexRunB.index then InSrc.pipeRead (cexRunB.index - 1)
       else InSrc.stdin) :=
  C4_input_source_choice cfZero allOkOracle allOkOracle []
    (Parse "echo a; echo b") 0 0 cexRunB (by decide)

/-- Inside an open single-quote run, any character other than the single
quote is copied into the current token verbatim (parsing.go lines 39-68:
the double-quote and whitespace branches are disabled while
`inSingleQuote` holds). -/
theorem tokStep_insingle_literal (st : TokState) (c : Char)
    (hs : st.inSingle = true) (hc : c ≠ squoteC) :
    tokStep st c = { st with current := st.current ++ [c] } := by
  simp [tokStep, hs, hc]

/-- Folding the tokenizer over quote-free text while a single-quote run is
open only extends the current token. -/
theorem foldl_tokStep_insingle (cs : List Char) :
    ∀ (st : TokState), st.inSingle = true → (∀ c ∈ cs, c ≠ squoteC) →
      List.foldl tokStep st cs = { st with current := st.current ++ cs } := by
  induction cs with
  | nil => intro st _ _; simp
  | cons c cs ih =>
    intro st hs hq
    have hc : c ≠ squoteC := hq c (by simp)
    rw [List.foldl_cons, tokStep_insingle_literal st c hs hc,
      ih { st with current := st.current ++ [c] } hs
        (fun x hx => hq x (by simp [hx]))]
    simp

/-- C8: a nonempty token fully wrapped in single quotes tokenizes to its
literal content with the single-quote flag set and the quote delimiters
stripped, and the executor's substitution pass then returns that content
unchanged. -/
theorem C8_single_quoted_token_roundtrip (s : String) (env : EnvStore)
    (hne : s ≠ "") (hq : ∀ c ∈ s.data, c ≠ squoteC) :
    tokenizeWithQuotes (String.mk [squoteC] ++ s ++ String.mk [squoteC]) =
      ([s], [0], []) ∧
    substituteArgs env ⟨s, [s], "", "", false, [0], []⟩ = [s] := by
  obtain ⟨l⟩ := s
  have hl : l ≠ [] := by
    intro h
    subst h
    exact hne rfl
  constructor
  · show tokenizeWithQuotes ⟨squoteC :: (l ++ [squoteC])⟩ = ([⟨l⟩], [0], [])
    have h1 : tokStep tokInit squoteC =
        ⟨[], [], [], [], true, false, true, false⟩ := by decide
    have h2 : List.foldl tokStep (⟨[], [], [], [], true, false, true, false⟩ :
        TokState) l = ⟨[], [], [], [] ++ l, true, false, true, false⟩ :=
      foldl_tokStep_insingle l _ rfl hq
    have h3 : tokStep (⟨[], [], [], [] ++ l, true, false, true, false⟩ :
        TokState) squoteC = ⟨[], [], [], [] ++ l, false, false, true, false⟩ := by
      simp [tokStep]
    unfold tokenizeWithQuotes
    rw [show (String.mk (squoteC :: (l ++ [squoteC]))).data
        = squoteC :: (l ++ [squoteC]) from rfl]
    rw [List.foldl_cons, h1, List.foldl_append, h2, List.foldl_cons,
      List.foldl_nil, h3]
    simp [tokFlush, hl]
  · rfl

/-- C8 witness: the round-trip on the single-quoted token `hi $X`, with the
variable `X` even bound in the environment — the content still comes back
verbatim. -/
theorem C8_single_quoted_token_witness :
    tokenizeWithQuotes (String.mk [squoteC] ++ "hi $X" ++ String.mk [squoteC]) =
      (["hi $X"], [0], []) ∧
    substituteArgs [("X", "y")] ⟨"hi $X", ["hi $X"], "", "", false, [0], []⟩ =
      ["hi $X"] :=
  C8_single_quoted_token_roundtrip "hi $X" [("X", "y")] (by decide) (by decide)




/-- A successful match consumes exactly the text it reports: the matched
text followed by the remainder is the original input after the `$`. -/
theorem matchVar_consumed (rest : List Char) (key : String) (txt rem : List Char)
    (h : matchVar rest = some (key, txt, rem)) : txt ++ rem = rest := by
  unfold matchVar at h
  split at h
  · simp only [Option.some.injEq, Prod.mk.injEq] at h
    obtain ⟨-, ht, hr⟩ := h
    subst ht
    subst hr
    exact List.takeWhile_append_dropWhile _ _
  · split at h
    · split at h
      · split at h
        · split at h
          · rename_i x1 c2 rest2 hword hlb x2 b after hdw hne
            simp only [Option.some.injEq, Prod.mk.injEq] at h
            obtain ⟨-, ht, hr⟩ := h
            subst ht
            subst hr
            have hsp : rest2.takeWhile (fun x => x ≠ rbraceC) ++ (b :: after) =
                rest2 := by
              rw [← hdw]
              exact List.takeWhile_append_dropWhile _ _
            conv_rhs => rw [← hsp]
            simp
          · exact Option.noConfusion h
        · exact Option.noConfusion h
      · exact Option.noConfusion h
    · exact Option.noConfusion h

/-- Every occurrence whose identifier misses the store is reproduced
verbatim by the substitution scan: if all looked-up identifiers miss, the
whole text is unchanged. -/
theorem expandAux_all_keys_missing (env : EnvStore) :
    ∀ (fuel : Nat) (cs : List Char),
      (∀ k ∈ scanKeysAux fuel cs, envGet env k = none) →
      expandAux env fuel cs = cs := by
  intro fuel
  induction fuel with
  | zero => intro cs _; rfl
  | succ n ih =>
    intro cs h
    cases cs with
    | nil => rfl
    | cons c rest =>
      by_cases hc : c = dollarC
      · subst hc
        cases hm : matchVar rest with
        | none =>
          simp only [scanKeysAux, hm, if_true, eq_self_iff_true] at h
          simp [expandAux, hm]
          exact ih rest h
        | some x =>
          obtain ⟨key, txt, rem⟩ := x
          simp only [scanKeysAux, hm, if_true, eq_self_iff_true,
            List.mem_cons] at h
          have hkey : envGet env key = none := h key (Or.inl rfl)
          have h' : ∀ k ∈ scanKeysAux n rem, envGet env k = none :=
            fun k hk => h k (Or.inr hk)
          simp [expandAux, hm, hkey, ih rem h']
          conv_rhs => rw [← matchVar_consumed rest key txt rem hm]
      · simp only [scanKeysAux, if_neg hc] at h
        simp only [expandAux, if_neg hc]
        rw [ih rest h]

/-- The substitution scan factors through the store-independent
decomposition: the output is precisely the concatenation, in order, of the
rendered segments. -/
theorem expandAux_eq_render_scanSegs (env : EnvStore) :
    ∀ (fuel : Nat) (cs : List Char),
      expandAux env fuel cs =
        ((scanSegsAux fuel cs).map (renderSeg env)).flatten := by
  intro fuel
  induction fuel with
  | zero => intro cs; simp [expandAux, scanSegsAux, renderSeg]
  | succ n ih =>
    intro cs
    cases cs with
    | nil => simp [expandAux, scanSegsAux]
    | cons c rest =>
      by_cases hc : c = dollarC
      · subst hc
        cases hm : matchVar rest with
        | none => simp [expandAux, scanSegsAux, hm, renderSeg, ih rest]
        | some x =>
          obtain ⟨key, txt, rem⟩ := x
          cases hg : envGet env key with
          | none => simp [expandAux, scanSegsAux, hm, renderSeg, hg, ih rem]
          | some v => simp [expandAux, scanSegsAux, hm, renderSeg, hg, ih rem]
      · simp [expandAux, scanSegsAux, hc, renderSeg, ih rest]

/-- The decomposition is exact: the segments' source texts concatenate back
to the input, so an occurrence's matched text is the original text at its
position in the argument. -/
theorem scanSegs_source_join :
    ∀ (fuel : Nat) (cs : List Char),
      ((scanSegsAux fuel cs).map segSource).flatten = cs := by
  intro fuel
  induction fuel with
  | zero => intro cs; simp [scanSegsAux, segSource]
  | succ n ih =>
    intro cs
    cases cs with
    | nil => simp [scanSegsAux]
    | cons c rest =>
      by_cases hc : c = dollarC
      · subst hc
        cases hm : matchVar rest with
        | none => simp [scanSegsAux, hm, segSource, ih rest]
        | some x =>
          obtain ⟨key, txt, rem⟩ := x
          simp [scanSegsAux, hm, segSource, ih rem]
          exact matchVar_consumed rest key txt rem hm
      · simp [scanSegsAux, hc, segSource, ih rest]

/-- C9: for every argument string and every store, `expandVar` is the
concatenation, in order, of the store-independent scan segments of the
argument, the segments' matched texts are exactly the original text, and a
`$name` / `${name}` occurrence whose identifier misses the store renders
to its own original matched text (the callback of pipeline.go line 40
returns the match) — so each such occurrence is left unchanged in the
output, never replaced by the empty string, whatever other occurrences hit
or miss. -/
theorem C9_missing_identifiers_left_unchanged (env : EnvStore) (s : String) :
    expandVar env s = String.mk (((scanSegs s).map (renderSeg env)).flatten) ∧
    ((scanSegs s).map segSource).flatten = s.data ∧
    (∀ key txt, Sum.inr (key, txt) ∈ scanSegs s →
      envGet env key = none → renderSeg env (Sum.inr (key, txt)) = txt) := by
  refine ⟨?_, ?_, ?_⟩
  · unfold expandVar scanSegs
    rw [expandAux_eq_render_scanSegs]
  · exact scanSegs_source_join s.data.length s.data
  · intro key txt _ hmiss
    simp [renderSeg, hmiss]

/-- C9 witness: in `a $HIT b $MISS` with only `HIT` bound, the missing
occurrence renders to its literal matched text even though the other
occurrence of the same argument is substituted. -/
theorem C9_missing_identifiers_witness :
    expandVar [("HIT", "v")] "a $HIT b $MISS" = "a v b $MISS" ∧
    renderSeg [("HIT", "v")] (Sum.inr ("MISS", ("$MISS" : String).data)) =
      ("$MISS" : String).data :=
  ⟨by decide,
   (C9_missing_identifiers_left_unchanged [("HIT", "v")] "a $HIT b $MISS").2.2
     "MISS" ("$MISS" : String).data (by decide) (by decide)⟩
